import Mathlib

set_option maxRecDepth 16384

/-!
Verification development for the in-memory Ethereum-style Merkle Patricia
Trie (files `src/lib.rs`, `src/nodes/{leaf,branch,extension}.rs`,
`src/hashing.rs`).  The Rust code is embedded shallowly: bytes and nibbles
are `Nat` (reduced mod 256 / mod 16 where the Rust types enforce it),
arenas are explicit slab values, panics (`expect` / `unwrap` /
`unreachable!`) are `Option.none`, and the digest `H : Digest` type
parameter becomes an explicit function parameter `d : List Nat → List Nat`.

The `nibble` and `storage` modules and the final `node.rs` (the one with
`InsertAction`) are not present under `src/` (only abandoned drafts are),
so those parts are modelled from the specification; every such definition
carries a doc comment starting with `Modelled from the spec:`.  Everything
else is translated from the source files.
-/

/-- Modelled from the spec: nibble decomposition of a byte string,
"packed two-per-byte, high nibble first" (the `nibble` module is missing
from `src/`).  Bytes are reduced mod 256, mirroring `u8`. -/
def bytesToNibbles : List Nat → List Nat
  | [] => []
  | b :: bs => (b % 256) / 16 :: (b % 256) % 16 :: bytesToNibbles bs

/-- Modelled from the spec: `NibbleSlice` is a zero-copy view
`(bytes, offset)`, the offset counted in nibbles. -/
structure NibbleSlice where
  data : List Nat
  offset : Nat
deriving DecidableEq, Repr

/-- Modelled from the spec: `NibbleSlice::new(bytes)` starts at offset 0. -/
def NibbleSlice.new (bytes : List Nat) : NibbleSlice := ⟨bytes, 0⟩

/-- The sequence of nibbles the slice still has to offer. -/
def NibbleSlice.rest (s : NibbleSlice) : List Nat :=
  (bytesToNibbles s.data).drop s.offset

/-- Modelled from the spec: `next` yields one nibble and advances. -/
def NibbleSlice.next (s : NibbleSlice) : Option (Nat × NibbleSlice) :=
  match s.rest with
  | [] => none
  | n :: _ => some (n, ⟨s.data, s.offset + 1⟩)

/-- Modelled from the spec: `offset_add` advances the offset. -/
def NibbleSlice.offsetAdd (s : NibbleSlice) (n : Nat) : NibbleSlice :=
  ⟨s.data, s.offset + n⟩

/-- Modelled from the spec: `skip_prefix(prefix)` returns true and advances
by `prefix.len()` iff the next nibbles match `prefix` exactly; otherwise it
returns false and leaves the slice unchanged.  (A `NibbleVec` is modelled
as its list of nibbles.) -/
def NibbleSlice.skipPfx (s : NibbleSlice) (pfx : List Nat) : Bool × NibbleSlice :=
  if (s.rest).take pfx.length = pfx then (true, s.offsetAdd pfx.length)
  else (false, s)

/-- Length of the longest common prefix of two nibble sequences. -/
def countCommon : List Nat → List Nat → Nat
  | a :: as_, b :: bs => if a = b then countCommon as_ bs + 1 else 0
  | _, _ => 0

/-- Modelled from the spec: `count_prefix` returns the length of the longest
common nibble prefix between the slice's remainder and the vector. -/
def NibbleSlice.countPfxVec (s : NibbleSlice) (pfx : List Nat) : Nat :=
  countCommon s.rest pfx

/-- Modelled from the spec: `split_to_vec(n)` consumes the next `n` nibbles
and returns them as an owned vector. -/
def NibbleSlice.splitToVec (s : NibbleSlice) (n : Nat) : List Nat × NibbleSlice :=
  ((s.rest).take n, s.offsetAdd n)

/-- Modelled from the spec: `cmp_rest(bytes)` compares the slice's entire
remaining nibble sequence against the nibble decomposition of `bytes`.
The consumed part of the descent is aligned on both sides (the spec fixes
the leaf's depth as the slice's offset into the stored key), so the
comparison drops the same offset from both nibble sequences and also
requires the total lengths to agree. -/
def NibbleSlice.cmpRest (s : NibbleSlice) (bytes : List Nat) : Bool :=
  ((bytesToNibbles s.data).drop s.offset == (bytesToNibbles bytes).drop s.offset)
    && (s.data.length == bytes.length)

/-- Modelled from the spec: `NibbleSlice::as_ref` exposes the underlying
byte buffer (used by `leaf.rs` as `path.as_ref().len()`). -/
def NibbleSlice.asRefLen (s : NibbleSlice) : Nat := s.data.length

/-- Modelled from the spec: a stable-index slab (`NodesStorage` /
`ValuesStorage`, the `storage` module is missing from `src/`).  `free` is
the LIFO list of vacated slots, exactly the `slab` crate's behavior:
`insert` pops a freed slot if one exists, else appends. -/
structure Slab (α : Type) where
  store : List (Option α)
  free : List Nat
deriving DecidableEq, Repr

/-- Modelled from the spec: the empty slab. -/
def Slab.empty {α : Type} : Slab α := ⟨[], []⟩

/-- Modelled from the spec: number of live (occupied) entries. -/
def Slab.len {α : Type} (s : Slab α) : Nat :=
  s.store.countP fun x => x.isSome

/-- Modelled from the spec: `is_empty` is `len == 0`. -/
def Slab.isEmpty {α : Type} (s : Slab α) : Bool := s.len == 0

/-- Modelled from the spec: `get(i)` returns the live entry at `i`. -/
def Slab.get {α : Type} (s : Slab α) (i : Nat) : Option α :=
  (s.store.getD i none)

/-- Modelled from the spec: `insert` stores into a vacated slot when one is
free (the slab crate's free list is LIFO), else appends; returns the index. -/
def Slab.insert {α : Type} (s : Slab α) (x : α) : Slab α × Nat :=
  match s.free with
  | i :: rest =>
      if i < s.store.length then (⟨s.store.set i (some x), rest⟩, i)
      else (⟨s.store ++ [some x], rest⟩, s.store.length)
  | [] => (⟨s.store ++ [some x], []⟩, s.store.length)

/-- Modelled from the spec: `try_remove(i)` returns the old contents and
frees the slot for reuse. -/
def Slab.tryRemove {α : Type} (s : Slab α) (i : Nat) : Option (Slab α × α) :=
  match s.get i with
  | some x => some (⟨s.store.set i none, i :: s.free⟩, x)
  | none => none

/-- Overwrite the live entry at `i` (the `get_mut` patches of `lib.rs`). -/
def Slab.setAt {α : Type} (s : Slab α) (i : Nat) (x : α) : Slab α :=
  ⟨s.store.set i (some x), s.free⟩

/-- Modelled from the spec: `NodeRef` / `ValueRef` are stable indices with a
reserved sentinel meaning "absent"; `none` is the sentinel, `is_valid` is
`Option.isSome`. -/
abbrev PRef := Option Nat

/-- A value slot: the stored `(key, value)` pair of byte strings. -/
abbrev ValueSlot := List Nat × List Nat

/-- The node sum of the final design (`Node` in the missing final `node.rs`,
variants from `src/nodes/{leaf,branch,extension}.rs`): `Leaf` holds a
`ValueRef`, `Extension` a nibble prefix plus a child `NodeRef`, `Branch` an
array of 16 child `NodeRef`s plus an optional `ValueRef`.  The per-node
hash caches are omitted: every embedded state has all caches dirty (freshly
built trees), which is the `NodeHash::default()` state. -/
inductive PNode where
  | leaf (valueRef : PRef)
  | ext (pfx : List Nat) (childRef : PRef)
  | branch (choices : List PRef) (valueRef : PRef)
deriving DecidableEq, Repr

/-- Modelled from the spec: `InsertAction`, the tagged value returned from
the innermost recursive insert step (final `node.rs` missing from `src/`). -/
inductive InsertAction where
  | ins (nodeRef : PRef)
  | replace (valueRef : PRef)
  | insertSelf
deriving DecidableEq, Repr

/-- Modelled from the spec: `quantize_self(node_ref)` turns `InsertSelf`
into `Insert(node_ref)` and leaves the other actions unchanged. -/
def InsertAction.quantizeSelf (a : InsertAction) (r : PRef) : InsertAction :=
  match a with
  | .insertSelf => .ins r
  | x => x

/-- The 16 absent choices a fresh branch starts from. -/
def emptyChoices : List PRef := List.replicate 16 none

/-- Read choice `i` of a branch (absent outside 0..15). -/
def getChoice (cs : List PRef) (i : Nat) : PRef := cs.getD i none

/-- `LeafNode::get` (src/nodes/leaf.rs): fetch the slot (`expect` = `none`),
then return the value iff `path.cmp_rest(stored_key)`. -/
def leafGet (values : Slab ValueSlot) (vr : PRef) (path : NibbleSlice) :
    Option (Option (List Nat)) :=
  match vr.bind values.get with
  | none => none
  | some (k, v) => some (if path.cmpRest k then some v else none)

/-- `Node::get` dispatch plus `BranchNode::get` / `ExtensionNode::get`
(src/nodes/branch.rs lines 45-81, src/nodes/extension.rs lines 43-61).
Fuel bounds the arena recursion; the outer `none` is a panic.  Note the
branch arm is a faithful rendering of the source's
`path.next().and_then(...).or_else(...)` chain: the `or_else` fallback to
the branch's own value runs whenever the `and_then` part produced `None`,
including when the path still had a nibble. -/
def nodeGet (nodes : Slab PNode) (values : Slab ValueSlot) :
    Nat → PNode → NibbleSlice → Option (Option (List Nat))
  | 0, _, _ => none
  | _, .leaf vr, path => leafGet values vr path
  | fuel + 1, .branch choices vr, path =>
      let viaChoice : Option (Option (List Nat)) :=
        match path.next with
        | some (c, path') =>
            match getChoice choices c with
            | some i =>
                match nodes.get i with
                | none => none
                | some child => nodeGet nodes values fuel child path'
            | none => some none
        | none => some none
      match viaChoice with
      | none => none
      | some (some v) => some (some v)
      | some none =>
          match vr.bind values.get with
          | some (_, v) => some (some v)
          | none => if vr.isSome then none else some none
  | fuel + 1, .ext pfx childRef, path =>
      match path.skipPfx pfx with
      | (true, path') =>
          match childRef.bind nodes.get with
          | none => none
          | some child => nodeGet nodes values fuel child path'
      | (false, _) => some none

/-- `LeafNode::insert` (src/nodes/leaf.rs lines 58-140), translated
faithfully, including the source's index computations: the common-prefix
length is the zip of a fresh slice of the stored key (offset 0) with the
path at its current offset; the exhaustion tests compare that nibble count
with `path.as_ref().len()` and `value_path.as_ref().len()` (byte lengths);
and in the neither-is-a-prefix case both choice assignments use the stored
key's nibble at `offset` (lines 118 and 121), so the second `List.set`
overwrites the first. -/
def leafInsert (nodes : Slab PNode) (values : Slab ValueSlot) (vr : PRef)
    (path : NibbleSlice) : Option (Slab PNode × PNode × InsertAction) :=
  match vr.bind values.get with
  | none => none
  | some (valuePath, _) =>
    if path.cmpRest valuePath then
      some (nodes, .leaf vr, .replace vr)
    else
      let off := countCommon (bytesToNibbles valuePath) path.rest
      let core : Option (Slab PNode × List PRef × InsertAction) :=
        if off = path.asRefLen then
          match (bytesToNibbles valuePath).get? off with
          | none => none
          | some c =>
              let (n1, selfIdx) := nodes.insert (.leaf vr)
              some (n1, emptyChoices.set c (some selfIdx), .insertSelf)
        else if off = valuePath.length then
          let (n1, childIdx) := nodes.insert (.leaf none)
          match (bytesToNibbles valuePath).get? off with
          | none => none
          | some c =>
              some (n1, emptyChoices.set c (some childIdx), .ins (some childIdx))
        else
          let (n1, childIdx) := nodes.insert (.leaf none)
          let (n2, selfIdx) := n1.insert (.leaf vr)
          match (bytesToNibbles valuePath).get? off with
          | none => none
          | some c =>
              some (n2, (emptyChoices.set c (some selfIdx)).set c (some childIdx),
                .ins (some childIdx))
      match core with
      | none => none
      | some (n', choices, act) =>
          if off ≠ 0 then
            let (n2, branchIdx) := n'.insert (.branch choices none)
            some (n2, .ext (path.splitToVec off).1 (some branchIdx),
              act.quantizeSelf (some branchIdx))
          else
            some (n', .branch choices none, act)

/-- `Node::insert` dispatch plus `BranchNode::insert`
(src/nodes/branch.rs lines 83-123) and `ExtensionNode::insert`
(src/nodes/extension.rs lines 63-138).  The values slab is read-only inside
node insertion; fuel bounds the arena recursion and `none` is a panic. -/
def nodeInsert (values : Slab ValueSlot) :
    Nat → Slab PNode → PNode → NibbleSlice →
    Option (Slab PNode × PNode × InsertAction)
  | 0, _, _, _ => none
  | _, nodes, .leaf vr, path => leafInsert nodes values vr path
  | fuel + 1, nodes, .branch choices vr, path =>
      match path.next with
      | some (c, path') =>
          match getChoice choices c with
          | none =>
              let (n1, childIdx) := nodes.insert (.leaf none)
              some (n1, .branch (choices.set c (some childIdx)) vr,
                .ins (some childIdx))
          | some i =>
              match nodes.tryRemove i with
              | none => none
              | some (n1, child) =>
                  match nodeInsert values fuel n1 child path' with
                  | none => none
                  | some (n2, child', act) =>
                      let (n3, newIdx) := n2.insert child'
                      some (n3, .branch (choices.set c (some newIdx)) vr,
                        act.quantizeSelf (some newIdx))
      | none =>
          if vr.isSome then some (nodes, .branch choices vr, .replace vr)
          else some (nodes, .branch choices vr, .insertSelf)
  | fuel + 1, nodes, .ext pfx childRef, path =>
      match path.skipPfx pfx with
      | (true, path') =>
          match childRef with
          | none => none
          | some ci =>
              match nodes.tryRemove ci with
              | none => none
              | some (n1, child) =>
                  match nodeInsert values fuel n1 child path' with
                  | none => none
                  | some (n2, child', act) =>
                      let (n3, newIdx) := n2.insert child'
                      some (n3, .ext pfx (some newIdx),
                        act.quantizeSelf (some newIdx))
      | (false, _) =>
          let off := path.countPfxVec pfx
          let path1 := path.offsetAdd off
          match pfx.get? off with
          | none => none
          | some pivot =>
              let left := pfx.take off
              let right := pfx.drop (off + 1)
              let (n1, rightRef) :=
                if right.isEmpty then (nodes, childRef)
                else
                  let (na, idx) := nodes.insert (.ext right childRef)
                  (na, some idx)
              let choices0 := emptyChoices.set pivot rightRef
              let (n2, choices1, insRef) :=
                match path1.next with
                | some (c, _) =>
                    let (nb, leafIdx) := n1.insert (.leaf none)
                    (nb, choices0.set c (some leafIdx), some (some leafIdx : PRef))
                | none => (n1, choices0, none)
              if left.isEmpty then
                match insRef with
                | some r => some (n2, .branch choices1 none, .ins r)
                | none => some (n2, .branch choices1 none, .insertSelf)
              else
                let (n3, branchIdx) := n2.insert (.branch choices1 none)
                some (n3, .ext left (some branchIdx),
                  .ins (insRef.getD (some branchIdx)))

/-- The trie facade state (`PatriciaMerkleTree` in src/lib.rs): the root
reference, the two arenas, and the cached root hash pair `(bool, Output)`. -/
structure PMT where
  rootRef : PRef
  nodes : Slab PNode
  values : Slab ValueSlot
  hashValid : Bool
  hashVal : List Nat
deriving DecidableEq, Repr

/-- `PatriciaMerkleTree::new` (src/lib.rs lines 49-56): empty arenas,
sentinel root, dirty zeroed hash cache. -/
def PMT.new : PMT := ⟨none, Slab.empty, Slab.empty, false, List.replicate 32 0⟩

/-- `PatriciaMerkleTree::is_empty` (src/lib.rs lines 59-61): consults the
node arena. -/
def PMT.isEmpty (s : PMT) : Bool := s.nodes.isEmpty

/-- `PatriciaMerkleTree::len` (src/lib.rs lines 64-66): counts value slots. -/
def PMT.len (s : PMT) : Nat := s.values.len

/-- `PatriciaMerkleTree::get` (src/lib.rs lines 69-73): absent root gives
`None` (not a panic); otherwise descend from the root node. -/
def PMT.get (s : PMT) (path : List Nat) : Option (Option (List Nat)) :=
  match s.rootRef.bind s.nodes.get with
  | none => some none
  | some root =>
      nodeGet s.nodes s.values ((bytesToNibbles path).length + 2) root
        (NibbleSlice.new path)

/-- `PatriciaMerkleTree::insert` (src/lib.rs lines 76-124): dirty the root
hash, remove and re-insert the root through the node insertion, then
resolve the quantized `InsertAction` (`Insert`: allocate a slot and patch
the leaf or branch; `Replace`: swap the stored value in place; anything
else is `unreachable!`). -/
def PMT.insert (s : PMT) (path value : List Nat) :
    Option (PMT × Option (List Nat)) :=
  let s := { s with hashValid := false }
  match (match s.rootRef with | some i => s.nodes.tryRemove i | none => none) with
  | some (n1, rootNode) =>
      let fuel := (bytesToNibbles path).length + 1
      match nodeInsert s.values fuel n1 rootNode (NibbleSlice.new path) with
      | none => none
      | some (n2, root', act) =>
          let (n3, rootIdx) := n2.insert root'
          match act.quantizeSelf (some rootIdx) with
          | .ins nref =>
              let (v1, vIdx) := s.values.insert (path, value)
              match nref with
              | none => none
              | some ni =>
                  match n3.get ni with
                  | some (.leaf _) =>
                      let s2 := { s with rootRef := some rootIdx, nodes := n3.setAt ni (.leaf (some vIdx)), values := v1 }
                      some (s2, none)
                  | some (.branch ch _) =>
                      let s2 := { s with rootRef := some rootIdx, nodes := n3.setAt ni (.branch ch (some vIdx)), values := v1 }
                      some (s2, none)
                  | some (.ext _ _) => none
                  | none => none
          | .replace vref =>
              match vref with
              | none => none
              | some vi =>
                  match s.values.get vi with
                  | some (k, old) =>
                      let s2 := { s with rootRef := some rootIdx, nodes := n3, values := s.values.setAt vi (k, value) }
                      some (s2, some old)
                  | none => none
          | .insertSelf => none
  | none =>
      let (v1, vIdx) := s.values.insert (path, value)
      let (n1, nIdx) := s.nodes.insert (.leaf (some vIdx))
      some ({ s with rootRef := some nIdx, nodes := n1, values := v1 }, none)

/-- Binary digits used by a 64-bit value, i.e.
`8 * size_of::<usize>() - value.leading_zeros()` for `usize` = `u64`. -/
def bitsUsed64 (v : Nat) : Nat := (List.range 64).countP fun i => 2 ^ i ≤ v

/-- `next_power_of_256` (src/hashing.rs lines 226-229): the bits used by
the value, saturating-minus one, shifted right by 3. -/
def nextPowerOf256 (value : Nat) : Nat := (bitsUsed64 value - 1) / 8

/-- `NodeHasher::bytes_len` (src/hashing.rs lines 106-112). -/
def bytesLen (valueLen firstValue : Nat) : Nat :=
  if valueLen = 1 ∧ firstValue < 128 then 1
  else if valueLen < 56 then valueLen + 1
  else valueLen + nextPowerOf256 valueLen + 1

/-- `NodeHasher::list_len` (src/hashing.rs lines 114-119). -/
def listLen (childrenLen : Nat) : Nat :=
  if childrenLen < 56 then childrenLen + 1
  else childrenLen + nextPowerOf256 childrenLen + 1

/-- Big-endian representation of `v` in exactly `n` bytes, i.e. the last
`n` bytes of `usize::to_be_bytes` (src/hashing.rs line 166). -/
def beBytesN : Nat → Nat → List Nat
  | 0, _ => []
  | n + 1, v => beBytesN n (v / 256) ++ [v % 256]

/-- The byte stream `NodeHasher::write_bytes` (src/hashing.rs lines
159-171) passes to `write_raw`: the single-byte/short/long RLP string
header as computed by the source (`0xB7 + next_power_of_256(l)` and the
last `next_power_of_256(l)` bytes of the big-endian length), then the
value itself. -/
def rlpStrStream (value : List Nat) : List Nat :=
  (if value.length = 1 ∧ value.headD 0 < 128 then []
   else if value.length < 56 then [0x80 + value.length]
   else (0xB7 + nextPowerOf256 value.length) ::
     beBytesN (nextPowerOf256 value.length) value.length) ++ value

/-- The byte stream `NodeHasher::write_list_header` (src/hashing.rs lines
173-182) passes to `write_raw`. -/
def rlpListHeaderStream (childrenLen : Nat) : List Nat :=
  if childrenLen < 56 then [0xC0 + childrenLen]
  else (0xF7 + nextPowerOf256 childrenLen) ::
    beBytesN (nextPowerOf256 childrenLen) childrenLen

/-- `PathKind` (src/hashing.rs lines 211-215). -/
inductive PathKind where
  | extKind
  | leafKind
deriving DecidableEq, Repr

/-- `PathKind::into_flag` (src/hashing.rs lines 217-224). -/
def PathKind.intoFlag : PathKind → Nat
  | .extKind => 0x00
  | .leafKind => 0x20

/-- Packing of nibble pairs, high nibble first (the `step_by(2)` zip in
`write_path_vec`, src/hashing.rs lines 134-137). -/
def packPairs : List Nat → List Nat
  | a :: b :: rest => ((a % 16) * 16 + b % 16) :: packPairs rest
  | _ => []

/-- The byte stream `NodeHasher::write_path_vec` / `write_path_slice`
(src/hashing.rs lines 121-157) passes to `write_raw`.  The source computes
a `flag` byte (`kind.into_flag()`, OR-ed with the first nibble when the
count is odd) but never writes it; only the packed remaining pairs reach
`write_raw`. -/
def hpStream (nibs : List Nat) (_kind : PathKind) : List Nat :=
  packPairs (if nibs.length % 2 = 1 then nibs.tail else nibs)

/-- Stated from the spec's words, for comparison with the source: the first
byte of the hex-prefix encoding is
`kind_flag | odd_flag | (first_nibble if odd else 0)` with `odd_flag =
0x10` exactly when the nibble count is odd. -/
def hpFlagSpec (nibs : List Nat) (kind : PathKind) : Nat :=
  kind.intoFlag + (if nibs.length % 2 = 1 then 0x10 + (nibs.headD 0) % 16 else 0)

/-- The `NodeHasher` accumulation state (src/hashing.rs lines 64-83): the
parent `NodeHash` buffer (32 bytes) with its fill `length`, and the
lazily-created sponge, modelled as the accumulated `Digest::update` input
(`none` = sponge never touched). -/
structure NHSt where
  length : Nat
  buf : List Nat
  sponge : Option (List Nat)
deriving DecidableEq, Repr

/-- `NodeHasher::new` over a dirty (default, zeroed) `NodeHash`. -/
def NHSt.init : NHSt := ⟨0, List.replicate 32 0, none⟩

/-- `push_hash_update` (src/hashing.rs lines 203-208): feed the first
`length` buffer bytes to the sponge (creating it if needed) and reset
`length` to 0. -/
def nhPushUpdate (st : NHSt) : NHSt :=
  { st with sponge := some ((st.sponge.getD []) ++ st.buf.take st.length), length := 0 }

/-- One byte of `write_raw` (src/hashing.rs lines 184-201): copy into the
buffer at `length`; on reaching 32, flush through `push_hash_update`. -/
def nhWriteByte (st : NHSt) (b : Nat) : NHSt :=
  let st1 : NHSt := { st with buf := st.buf.set st.length (b % 256), length := st.length + 1 }
  if st1.length = 32 then nhPushUpdate st1 else st1

/-- `write_raw` over a byte sequence (the chunked copy loop of the source
produces exactly this byte-at-a-time result). -/
def nhWriteRaw (st : NHSt) (bs : List Nat) : NHSt := bs.foldl nhWriteByte st

/-- `write_bytes` = `write_raw` of the RLP string stream. -/
def nhWriteBytes (st : NHSt) (v : List Nat) : NHSt := nhWriteRaw st (rlpStrStream v)

/-- `write_list_header` = `write_raw` of the list-header stream. -/
def nhWriteListHeader (st : NHSt) (l : Nat) : NHSt :=
  nhWriteRaw st (rlpListHeaderStream l)

/-- `write_path_vec` / `write_path_slice` = `write_raw` of the path stream. -/
def nhWritePath (st : NHSt) (nibs : List Nat) (kind : PathKind) : NHSt :=
  nhWriteRaw st (hpStream nibs kind)

/-- `NodeHashRef` (src/hashing.rs lines 43-50). -/
inductive NHRef where
  | inline (bytes : List Nat)
  | hashed (bytes : List Nat)
deriving DecidableEq, Repr

/-- `NodeHashRef::as_ref` (src/hashing.rs lines 52-62). -/
def NHRef.asBytes : NHRef → List Nat
  | .inline x => x
  | .hashed x => x

/-- `NodeHasher::finalize` (src/hashing.rs lines 85-94), as written: when
the sponge was touched, flush the partial buffer into it via
`push_hash_update`, set the parent length to 32 and return `Hashed` over
the parent buffer — the sponge is never finalized into the buffer.
Otherwise return `Inline` over the first `length` buffer bytes. -/
def nhFinalize (st : NHSt) : NHRef × NHSt :=
  match st.sponge with
  | some _ =>
      let st1 := nhPushUpdate st
      (.hashed st1.buf, { st1 with length := 32 })
  | none => (.inline (st.buf.take st.length), st)

/-- Length contribution of one branch child in the pre-computation pass
(src/nodes/branch.rs lines 132-151): a present child contributes
`child_hash_ref.as_ref().len()`, an absent one contributes 1. -/
def nhChildRawLen : NHRef → Nat
  | .inline x => x.length
  | .hashed x => x.length

/-- `Node::compute_hash` dispatch with `BranchNode::compute_hash`
(src/nodes/branch.rs lines 125-192) and `ExtensionNode::compute_hash`
(src/nodes/extension.rs lines 140-169) from the source.  The leaf case is
modelled from the spec (§4.4 "Leaf: `[HP(key_suffix, leaf), value_bytes]`")
using the source `NodeHasher` primitives, because `LeafNode::compute_hash`
is commented out in src/nodes/leaf.rs.  The digest type parameter `H` is
the function `d`; fuel bounds the arena recursion and `none` is a panic. -/
def nodeComputeHash (d : List Nat → List Nat) (values : Slab ValueSlot)
    (nodes : Slab PNode) : Nat → PNode → Nat → Option NHRef
  | 0, _, _ => none
  | _, .leaf vr, keyOffset =>
      match vr.bind values.get with
      | none => none
      | some (k, v) =>
          let suffix := (bytesToNibbles k).drop keyOffset
          let pathLen := bytesLen (suffix.length / 2 + 1) 0
          let valLen := bytesLen v.length (v.headD 0)
          let st := nhWriteListHeader NHSt.init (pathLen + valLen)
          let st := nhWritePath st suffix .leafKind
          let st := nhWriteBytes st v
          some (nhFinalize st).1
  | fuel + 1, .branch choices vr, keyOffset =>
      let childHash : PRef → Option (Option NHRef) := fun c =>
        match c with
        | some i =>
            match nodes.get i with
            | none => none
            | some child =>
                (nodeComputeHash d values nodes fuel child (keyOffset + 1)).map some
        | none => some none
      let lenStep : Option Nat → PRef → Option Nat := fun acc c =>
        acc.bind fun n =>
          (childHash c).map fun h =>
            match h with
            | some r => n + nhChildRawLen r
            | none => n + 1
      match choices.foldl lenStep (some 0) with
      | none => none
      | some childrenLen =>
          let valPart : Option Nat :=
            match vr with
            | none => some 0
            | some i =>
                (values.get i).map fun kv => bytesLen kv.2.length (kv.2.headD 0)
          match valPart with
          | none => none
          | some vl =>
              let st0 := nhWriteListHeader NHSt.init (childrenLen + vl)
              let writeStep : Option NHSt → PRef → Option NHSt := fun acc c =>
                acc.bind fun st =>
                  (childHash c).map fun h =>
                    match h with
                    | some r => nhWriteRaw st r.asBytes
                    | none => nhWriteBytes st []
              match choices.foldl writeStep (some st0) with
              | none => none
              | some st1 =>
                  let st2 :=
                    match vr.bind values.get with
                    | some kv => nhWriteBytes st1 kv.2
                    | none => st1
                  some (nhFinalize st2).1
  | fuel + 1, .ext pfx childRef, keyOffset =>
      match childRef.bind nodes.get with
      | none => none
      | some child =>
          match nodeComputeHash d values nodes fuel child (keyOffset + pfx.length) with
          | none => none
          | some ch =>
              let prefixLen := bytesLen (pfx.length / 2 + 1) 0
              let childLen :=
                match ch with
                | .inline x => x.length
                | .hashed x => bytesLen x.length (x.headD 0)
              let st := nhWriteListHeader NHSt.init (prefixLen + childLen)
              let st := nhWritePath st pfx .extKind
              let st :=
                match ch with
                | .inline x => nhWriteRaw st x
                | .hashed x => nhWriteBytes st x
              some (nhFinalize st).1

/-- `PatriciaMerkleTree::compute_hash` (src/lib.rs lines 127-148): return
the cached hash when valid; otherwise only when the root reference is
valid (`is_valid().then(...)` — the inner `none` is the empty-tree case),
compute the root encoding, hashing it once more when it came back inline. -/
def PMT.computeHash (d : List Nat → List Nat) (s : PMT) :
    Option (Option (List Nat) × PMT) :=
  if s.hashValid then some (some s.hashVal, s)
  else
    match s.rootRef with
    | none => some (none, s)
    | some i =>
        match s.nodes.get i with
        | none => none
        | some root =>
            match nodeComputeHash d s.values s.nodes (s.nodes.store.length + 1) root 0 with
            | none => none
            | some (.inline x) =>
                let s2 := { s with hashValid := true, hashVal := d x }
                some (some s2.hashVal, s2)
            | some (.hashed x) =>
                let s2 := { s with hashValid := true, hashVal := x }
                some (some s2.hashVal, s2)

/-- A public operation of the trie facade. -/
inductive PubOp where
  | ins (k v : List Nat)
  | lookup (k : List Nat)
  | chash
deriving DecidableEq, Repr

/-- Run one public operation (a panic anywhere gives `none`; `get` does not
mutate, `compute_hash` only touches the cached hash pair). -/
def stepOp (d : List Nat → List Nat) (s : PMT) : PubOp → Option PMT
  | .ins k v => (PMT.insert s k v).map Prod.fst
  | .lookup k => (PMT.get s k).map fun _ => s
  | .chash => (PMT.computeHash d s).map Prod.snd

/-- Run a sequence of public operations from `PatriciaMerkleTree::new()`. -/
def execOps (d : List Nat → List Nat) (ops : List PubOp) : Option PMT :=
  ops.foldl (fun acc op => acc.bind fun s => stepOp d s op) (some PMT.new)

/-- The identity digest: a concrete instantiation of the `H : Digest`
parameter used to compare root encodings. -/
def idDigest : List Nat → List Nat := fun bs => bs

/-- Digest instantiation for the empty-tree hash check. -/
def c2Digest : List Nat → List Nat := fun _ => []

/-- The canonical empty-trie root stated by the spec:
`Keccak256(0x80)` = `56e81f171bcc55a6ff8345e692c0f86e5b48e01b996cadc001622fb5e363b421`. -/
def c2EmptyRoot : List Nat :=
  [0x56, 0xe8, 0x1f, 0x17, 0x1b, 0xcc, 0x55, 0xa6, 0xff, 0x83, 0x45, 0xe6,
   0x92, 0xc0, 0xf8, 0x6e, 0x5b, 0x48, 0xe0, 0x1b, 0x99, 0x6c, 0xad, 0xc0,
   0x01, 0x62, 0x2f, 0xb5, 0xe3, 0x63, 0xb4, 0x21]

/-- Keys `[0x00,0x00] ↦ [0xAA]` then `[0x01,0x00] ↦ [0xBB]` inserted into a
fresh tree (the shape of the repository's own regression test
`proptest_regression_1b641284...`). -/
def c1Tree : Option PMT :=
  (PMT.insert PMT.new [0x00, 0x00] [0xAA]).bind fun p =>
    (PMT.insert p.1 [0x01, 0x00] [0xBB]).map Prod.fst

/-- `insert([0x00],[0x00]); insert([0x20],[0x01]); insert([0x20],[0x02])`:
the third call is the second insert of the key `[0x20]`. -/
def c3Run : Option (PMT × Option (List Nat)) :=
  (PMT.insert PMT.new [0x00] [0x00]).bind fun p =>
    (PMT.insert p.1 [0x20] [0x01]).bind fun q =>
      PMT.insert q.1 [0x20] [0x02]

/-- The pairs `{[0x00,0x00] ↦ [0xAA], [0x01,0x00] ↦ [0xBB]}` inserted in one
order... -/
def c4TreeA : Option PMT :=
  (PMT.insert PMT.new [0x00, 0x00] [0xAA]).bind fun p =>
    (PMT.insert p.1 [0x01, 0x00] [0xBB]).map Prod.fst

/-- ... and the same set of pairs inserted in the other order. -/
def c4TreeB : Option PMT :=
  (PMT.insert PMT.new [0x01, 0x00] [0xBB]).bind fun p =>
    (PMT.insert p.1 [0x00, 0x00] [0xAA]).map Prod.fst

/-- A branch whose sixteen choices are all absent and whose own value slot
is set (slot 0 of `c5Values`). -/
def c5Branch : PNode := .branch emptyChoices (some 0)

/-- The value arena backing `c5Branch`: one slot holding `([], [0x07])`. -/
def c5Values : Slab ValueSlot := ⟨[some ([], [0x07])], []⟩

/-- Value arena for the leaf-split scenario: slot 0 stores
`([0x00], [0xAA])`. -/
def c6Values : Slab ValueSlot := ⟨[some ([0x00], [0xAA])], []⟩

/-- `LeafNode::insert` applied to a leaf storing key `[0x00]` (nibbles
`[0,0]`) with the lookup path `[0x20]` (nibbles `[2,0]`): common prefix
length `p = 0` and neither is a prefix of the other. -/
def c6Result : Option (Slab PNode × PNode × InsertAction) :=
  leafInsert Slab.empty c6Values (some 0) (NibbleSlice.new [0x20])

/-- The choices list `LeafNode::insert` builds in the neither-is-a-prefix
case for `c6Result`: both assignments target the stored key's nibble at
offset 0. -/
def c6Choices : List PRef := (emptyChoices.set 0 (some 1)).set 0 (some 0)

/-- Stated from the claim's words: the minimum number of bytes needed to
represent a length `L` in big-endian. -/
def minBytesSpec (L : Nat) : Nat := if L = 0 then 1 else (bitsUsed64 L + 7) / 8

/-- A digest instantiation that never returns the residual buffer contents
of the `finalize` scenario. -/
def c9Digest : List Nat → List Nat := fun _ => List.replicate 32 1

/-- The hasher state after writing 33 zero bytes: the window filled at 32
bytes and was flushed into the sponge, one byte remains buffered. -/
def c9St : NHSt := nhWriteRaw NHSt.init (List.replicate 33 0)

/-- Digest instantiation for the reachable-state invariant runs. -/
def c10Digest : List Nat → List Nat := fun bs => bs

/-- A one-insert operation sequence. -/
def c10DemoOps : List PubOp := [.ins [0x01] [0x02]]

/-- The state `execOps c10Digest c10DemoOps` produces. -/
def c10DemoState : PMT :=
  ⟨some 0, ⟨[some (.leaf (some 0))], []⟩, ⟨[some ([0x01], [0x02])], []⟩,
   false, List.replicate 32 0⟩

/-- The reachable-state invariant behind C10: the node arena is empty
exactly when the value arena is. -/
def PMTInv (s : PMT) : Prop := s.nodes.len = 0 ↔ s.values.len = 0

/-- A slab that just received an entry has a live entry. -/
theorem Slab.len_insert_pos {α : Type} (sl : Slab α) (x : α) :
    0 < ((Slab.insert sl x).1).len := by
  unfold Slab.insert Slab.len
  rcases sl with ⟨store, free⟩
  rcases free with _ | ⟨i, rest⟩ <;> simp only
  · simp [List.countP_append, List.countP_cons]
  · by_cases h : i < store.length <;> simp only [h, if_true, if_false]
    · apply List.countP_pos_iff.mpr
      exact ⟨some x, List.mem_set _ _ h _, rfl⟩
    · simp [List.countP_append, List.countP_cons]

/-- A slab with a live entry at some index has positive length. -/
theorem Slab.len_pos_of_get {α : Type} (sl : Slab α) (i : Nat) (x : α)
    (h : sl.get i = some x) : 0 < sl.len := by
  unfold Slab.get at h
  unfold Slab.len
  apply List.countP_pos_iff.mpr
  refine ⟨some x, ?_, rfl⟩
  have hg : sl.store.get? i = some (some x) := by
    rcases hx : sl.store.get? i with _ | y <;>
      rw [List.getD_eq_getD_get?, hx] at h <;> simp_all
  exact List.get?_mem hg

/-- Overwriting a slot keeps the slab nonempty. -/
theorem Slab.len_setAt_pos {α : Type} (sl : Slab α) (i : Nat) (x : α)
    (h : 0 < sl.len) : 0 < (sl.setAt i x).len := by
  unfold Slab.setAt Slab.len
  by_cases hi : i < sl.store.length
  · apply List.countP_pos_iff.mpr
    exact ⟨some x, List.mem_set _ _ hi _, rfl⟩
  · rw [List.set_eq_of_length_le (Nat.le_of_not_lt hi)]
    exact h

/-- Any successful facade insert leaves both arenas with a live entry: the
re-inserted root occupies the node arena, and the resolved `InsertAction`
either allocates a value slot or overwrites an existing live one. -/
theorem PMT.insert_pos (s : PMT) (path value : List Nat)
    (pr : PMT × Option (List Nat)) (h : PMT.insert s path value = some pr) :
    0 < pr.1.nodes.len ∧ 0 < pr.1.values.len := by
  simp only [PMT.insert] at h
  split at h
  · split at h
    · exact absurd h (by simp)
    · split at h
      · -- InsertAction.ins
        split at h
        · exact absurd h (by simp)
        · split at h
          · cases h
            exact ⟨Slab.len_setAt_pos _ _ _ (Slab.len_insert_pos _ _),
              Slab.len_insert_pos _ _⟩
          · cases h
            exact ⟨Slab.len_setAt_pos _ _ _ (Slab.len_insert_pos _ _),
              Slab.len_insert_pos _ _⟩
          · exact absurd h (by simp)
          · exact absurd h (by simp)
      · -- InsertAction.replace
        split at h
        · exact absurd h (by simp)
        · split at h
          · next vi kv heq =>
              cases h
              exact ⟨Slab.len_insert_pos _ _,
                Slab.len_setAt_pos _ _ _ (Slab.len_pos_of_get _ _ _ heq)⟩
          · exact absurd h (by simp)
      · -- InsertAction.insertSelf (unreachable!)
        exact absurd h (by simp)
  · cases h
    exact ⟨Slab.len_insert_pos _ _, Slab.len_insert_pos _ _⟩

/-- A successful `compute_hash` never touches the arenas (it only updates
the cached hash pair). -/
theorem PMT.computeHash_arenas (d : List Nat → List Nat) (s : PMT)
    (r : Option (List Nat) × PMT) (h : PMT.computeHash d s = some r) :
    r.2.nodes = s.nodes ∧ r.2.values = s.values := by
  simp only [PMT.computeHash] at h
  split at h
  · cases h; exact ⟨rfl, rfl⟩
  · split at h
    · cases h; exact ⟨rfl, rfl⟩
    · split at h
      · exact absurd h (by simp)
      · split at h
        · exact absurd h (by simp)
        · cases h; exact ⟨rfl, rfl⟩
        · cases h; exact ⟨rfl, rfl⟩

/-- Every public operation preserves the invariant. -/
theorem stepOp_inv (d : List Nat → List Nat) (s s' : PMT) (op : PubOp)
    (hI : PMTInv s) (h : stepOp d s op = some s') : PMTInv s' := by
  cases op with
  | ins k v =>
      simp only [stepOp, Option.map_eq_some'] at h
      obtain ⟨pr, hpr, hf⟩ := h
      subst hf
      have hp := PMT.insert_pos s k v pr hpr
      constructor <;> intro hh <;> omega
  | lookup k =>
      simp only [stepOp, Option.map_eq_some'] at h
      obtain ⟨r, hr, hf⟩ := h
      subst hf
      exact hI
  | chash =>
      simp only [stepOp, Option.map_eq_some'] at h
      obtain ⟨r, hr, hf⟩ := h
      subst hf
      have ha := PMT.computeHash_arenas d s r hr
      unfold PMTInv
      rw [ha.1, ha.2]
      exact hI

/-- Folding public operations from an invariant-satisfying accumulator
keeps the invariant. -/
theorem execOps_fold_inv (d : List Nat → List Nat) (ops : List PubOp) :
    ∀ acc : Option PMT, (∀ t, acc = some t → PMTInv t) →
      ∀ s, ops.foldl (fun a op => a.bind fun t => stepOp d t op) acc = some s →
        PMTInv s := by
  induction ops with
  | nil =>
      intro acc hacc s hs
      exact hacc s hs
  | cons op rest ih =>
      intro acc hacc s hs
      refine ih _ ?_ s hs
      intro t ht
      rcases acc with _ | a
      · exact absurd ht (by simp)
      · exact stepOp_inv d a t op (hacc a rfl) ht

/-- C10: for every tree reachable from `new()` by a successful sequence of
public operations (`insert`, `get`, `compute_hash`), `is_empty()` returns
true exactly when `len()` returns 0, even though `is_empty` consults the
node arena while `len` counts value slots. -/
theorem c10_is_empty_iff_len_zero (d : List Nat → List Nat)
    (ops : List PubOp) (s : PMT) (h : execOps d ops = some s) :
    PMT.isEmpty s = true ↔ PMT.len s = 0 := by
  have hinv : PMTInv s := by
    refine execOps_fold_inv d ops (some PMT.new) ?_ s h
    intro t ht
    cases ht
    exact ⟨fun _ => rfl, fun _ => rfl⟩
  simpa [PMT.isEmpty, Slab.isEmpty, PMT.len, PMTInv] using hinv

/-- C10 witness: the invariant instantiated on the tree that one concrete
insert reaches (both sides of the iff are false there). -/
theorem c10_is_empty_iff_len_zero_witness :
    PMT.isEmpty c10DemoState = true ↔ PMT.len c10DemoState = 0 :=
  c10_is_empty_iff_len_zero c10Digest c10DemoOps c10DemoState (by decide)

/-- C2 counterexample: on the freshly created empty tree, `compute_hash`
does not return the canonical empty root (it returns `None`, because the
root reference is the sentinel and the `is_valid().then(...)` guard
produces no hash at all). -/
theorem c2_empty_hash_not_canonical :
    (PMT.computeHash c2Digest PMT.new).map Prod.fst ≠ some (some c2EmptyRoot) := by
  decide

/-- C2 (amended): for the empty tree, `compute_hash` returns `None`,
whatever the digest is. -/
theorem c2_empty_hash_is_none (d : List Nat → List Nat) :
    (PMT.computeHash d PMT.new).map Prod.fst = some none := rfl

/-- C1: retrievability fails on the code.  After inserting the distinct
keys `[0x00,0x00] ↦ [0xAA]` and `[0x01,0x00] ↦ [0xBB]` into a fresh tree,
`get([0x00,0x00])` returns `Some([0xBB])` (the other key's value) and
`get([0x01,0x00])` returns `None`: the leaf split placed the fresh leaf
over the existing one (both choice assignments in
`src/nodes/leaf.rs` lines 118-122 use the stored key's nibble). -/
theorem c1_retrievability_fails :
    c1Tree.bind (fun t => PMT.get t [0x00, 0x00]) = some (some [0xBB]) ∧
    c1Tree.bind (fun t => PMT.get t [0x01, 0x00]) = some none ∧
    (some (some [0xBB]) : Option (Option (List Nat))) ≠ some (some [0xAA]) := by
  refine ⟨by decide, by decide, by decide⟩

/-- C3: overwrite semantics fail on the code.  In
`insert([0x00],[0x00]); insert([0x20],[0x01]); insert([0x20],[0x02])` the
third call — the second insert of the key `[0x20]` — returns `None`
instead of `Some([0x01])` (a second slot is allocated for the same key);
the subsequent `get([0x20])` does return `Some([0x02])`. -/
theorem c3_overwrite_fails :
    c3Run.map Prod.snd = some none ∧
    c3Run.bind (fun p => PMT.get p.1 [0x20]) = some (some [0x02]) ∧
    (some none : Option (Option (List Nat))) ≠ some (some [0x01]) := by
  refine ⟨by decide, by decide, by decide⟩

/-- C4: the root hash depends on insertion order.  Instantiating the digest
parameter with the identity, the two insertion orders of the same two-pair
set produce different root hashes (and even observably different
contents). -/
theorem c4_root_hash_order_dependent :
    (c4TreeA.bind (PMT.computeHash idDigest)).map Prod.fst ≠
      (c4TreeB.bind (PMT.computeHash idDigest)).map Prod.fst := by
  decide

/-- C5: `BranchNode::get` with a remaining nibble whose choice is absent
does not return `None` when the branch carries its own value: the
`or_else` fallback (src/nodes/branch.rs lines 69-80) also runs in that
case and returns the branch's stored value `[0x07]`. -/
theorem c5_branch_get_falls_back :
    nodeGet Slab.empty c5Values 3 c5Branch (NibbleSlice.new [0x00]) =
      some (some [0x07]) ∧
    (some (some [0x07]) : Option (Option (List Nat))) ≠ some none := by
  refine ⟨by decide, by decide⟩

/-- C6: in the neither-is-a-prefix leaf split the produced branch has
exactly one occupied choice, holding the fresh leaf (node 0) at the stored
key's first nibble 0, while nibble 2 (the path's first nibble, where the
claim expects the fresh leaf) is absent and the existing leaf (node 1) is
orphaned; the action is `Insert(fresh)`. -/
theorem c6_split_single_choice :
    c6Result = some (⟨[some (.leaf none), some (.leaf (some 0))], []⟩,
      .branch c6Choices none, .ins (some 0)) ∧
    c6Choices.countP (fun r => r.isSome) = 1 ∧
    getChoice c6Choices 0 = some 0 ∧
    getChoice c6Choices 2 = none := by
  refine ⟨by decide, by decide, by decide, by decide⟩

/-- C7: the written hex-prefix stream has no flag byte.  For the even-length
path `[0,2]` tagged leaf the source emits just `[0x02]` whereas the claim's
first byte would be `0x20`; for the odd single-nibble path `[1]` the source
emits nothing at all (the flag byte absorbed the only nibble and was then
dropped). -/
theorem c7_flag_byte_never_written :
    hpStream [0x0, 0x2] PathKind.leafKind = [0x02] ∧
    hpFlagSpec [0x0, 0x2] PathKind.leafKind = 0x20 ∧
    (hpStream [0x0, 0x2] PathKind.leafKind).head? ≠
      some (hpFlagSpec [0x0, 0x2] PathKind.leafKind) ∧
    hpStream [0x1] PathKind.leafKind = [] := by
  refine ⟨by decide, by decide, by decide, by decide⟩

/-- C8: for a byte string of length exactly 56 the writer emits the header
byte `0xB7` followed directly by the data — `next_power_of_256(56) = 0`, so
no big-endian length bytes are written — whereas the minimum number of
bytes needed to represent 56 is 1 (the claim's encoding is
`0xB8, 0x38, data`).  The list header has the same defect. -/
theorem c8_long_string_header_wrong :
    rlpStrStream (List.replicate 56 0x07) = 0xB7 :: List.replicate 56 0x07 ∧
    nextPowerOf256 56 = 0 ∧
    minBytesSpec 56 = 1 ∧
    rlpListHeaderStream 56 = [0xF7] ∧
    (0xB7 :: List.replicate 56 0x07 : List Nat) ≠
      0xB8 :: 0x38 :: List.replicate 56 0x07 := by
  refine ⟨by decide, by decide, by decide, by decide, by decide⟩

/-- C9: after 33 written bytes the sponge was touched and `finalize`
returns the `Hashed` variant, but the 32 bytes it exposes are the residual
buffer contents (all zero here) and not the digest of the written bytes:
instantiating the digest with `c9Digest` (constant `replicate 32 1`), the
claimed copied result differs from what is returned. -/
theorem c9_finalize_digest_not_copied :
    (nhFinalize c9St).1 = NHRef.hashed (List.replicate 32 0) ∧
    c9St.sponge.isSome = true ∧
    NHRef.hashed (c9Digest (List.replicate 33 0)) ≠ (nhFinalize c9St).1 := by
  refine ⟨by decide, by decide, by decide⟩

/-- C2 witness: the amended statement instantiated at the concrete digest
`c2Digest`. -/
theorem c2_empty_hash_is_none_witness :
    (PMT.computeHash c2Digest PMT.new).map Prod.fst = some none :=
  c2_empty_hash_is_none c2Digest
